import Mathlib

/-!
Shallow embedding of the `si` toolkit's estimator and model-selection core:
the `Dataset` container (src/si/data/dataset.py), the regularized
`LogisticRegression` estimator (src/si/linear_model/logistic_regression.py),
`cross_validate` (src/si/model_selection/cross_validate.py) and
`grid_search` (src/si/model_selection/grid_search.py).

Numeric values (numpy float64 in the source) are embedded as rationals `ℚ`;
1-D arrays are `List ℚ` and 2-D arrays are `List (List ℚ)` (row-major).
The external numeric primitives that the core consumes but whose source is
not part of the repository snapshot (`sigmoid_function`, `np.log`, the
`accuracy` metric, `train_test_split`, `np.random.randint`) are passed in as
explicit function parameters or modelled from the spec where noted.
-/

/-- Tabular dataset (src/si/data/dataset.py): feature matrix `X` of shape
(n_samples, n_features) and label vector `y` of length n_samples.  All
claims under study concern labeled datasets, so `y` is carried directly
(an unlabeled dataset is never passed to the embedded operations). -/
structure Dataset where
  X : List (List ℚ)
  y : List ℚ
deriving Repr, DecidableEq

/-- `Dataset.get_shape` returns `X.shape` = (n_samples, n_features).
The column count is read off the first row (every dataset the claims touch
has equal-length rows). -/
def Dataset.get_shape (ds : Dataset) : ℕ × ℕ :=
  (ds.X.length, (ds.X.headD []).length)

/-- Dot product of two vectors (`np.dot` on 1-D arrays). -/
def dotVec (a b : List ℚ) : ℚ :=
  (List.zipWith (fun x y => x * y) a b).sum

/-- Matrix–vector product `np.dot(X, v)`: one dot product per row. -/
def matVec (X : List (List ℚ)) (v : List ℚ) : List ℚ :=
  X.map (fun row => dotVec row v)

/-- Vector–matrix product `np.dot(r, X)`: for each column j of `X`,
`Σ_i r_i * X_i_j`, i.e. the dot product of `r` with that column. -/
def vecMatMul (r : List ℚ) (X : List (List ℚ)) : List ℚ :=
  X.transpose.map (fun col => dotVec r col)

/-- Elementwise vector subtraction (numpy `-` broadcasting on equal shapes). -/
def vsub (a b : List ℚ) : List ℚ :=
  List.zipWith (fun x y => x - y) a b

/-- Scalar multiple of a vector (numpy scalar `*` array). -/
def smulV (c : ℚ) (v : List ℚ) : List ℚ :=
  v.map (fun x => c * x)

/-- The `LogisticRegression` estimator's state
(src/si/linear_model/logistic_regression.py): the three hyperparameters set
in `__init__`, the learned parameters `theta`/`theta_zero` (`None` before
the first `fit`, embedded as `Option`), and `cost_history`.  The source
keeps `cost_history` as a dict keyed by consecutive iteration indices
0, 1, ...; it is embedded as the list of costs recorded by the current
`fit` (entry `i` of the list = `cost_history[i]`). -/
structure LogisticRegression where
  l2_penalty : ℚ
  alpha : ℚ
  max_iter : ℕ
  theta : Option (List ℚ)
  theta_zero : Option ℚ
  cost_history : List ℚ

/-- A fresh `LogisticRegression()` with the source's `__init__` defaults:
`l2_penalty=1`, `alpha=0.001`, `max_iter=1000`, `theta=None`,
`theta_zero=None`, empty `cost_history`. -/
def LogisticRegression.init : LogisticRegression :=
  { l2_penalty := 1, alpha := 1/1000, max_iter := 1000,
    theta := none, theta_zero := none, cost_history := [] }

/-- One iteration of the gradient-descent loop body of
`LogisticRegression.fit` (source lines 70–80): the linear score
`y_pred = np.dot(X, theta) + theta_zero`, the gradient
`(alpha * (1/m)) * np.dot(y_pred - y, X)`, the penalty
`alpha * (l2_penalty/m) * theta`, and the two parameter updates.
No activation is applied inside the update. -/
def gdStep (alpha l2 : ℚ) (m : ℕ) (X : List (List ℚ)) (y : List ℚ)
    (θ : List ℚ) (θ0 : ℚ) : List ℚ × ℚ :=
  let y_pred := (matVec X θ).map (fun z => z + θ0)
  let r := vsub y_pred y
  let gradient := smulV (alpha * (1 / (m : ℚ))) (vecMatMul r X)
  let penalization_term := smulV (alpha * (l2 / (m : ℚ))) θ
  (vsub (vsub θ gradient) penalization_term,
   θ0 - (alpha * (1 / (m : ℚ))) * r.sum)

/-- The `for i in range(self.max_iter)` loop of `LogisticRegression.fit`,
with the fuel argument counting the remaining iterations.  Each iteration
updates the parameters with `gdStep`, records the new cost in the history,
and — when a previous entry exists (`i > 0` in the source) — returns
immediately if the cost decreased by less than `0.0001`.
`costFn θ θ0` stands for `self.cost(dataset)` evaluated at the current
parameters: the cost method's numeric value is supplied as a function
parameter because its float computation (sigmoid, log) is external to the
loop being verified here (it is embedded separately as
`LogisticRegression.cost`). -/
def LogisticRegression.fitGo (costFn : List ℚ → ℚ → ℚ) (alpha l2 : ℚ)
    (X : List (List ℚ)) (y : List ℚ) (m : ℕ) :
    ℕ → List ℚ → ℚ → List ℚ → List ℚ × ℚ × List ℚ
  | 0, θ, θ0, hist => (θ, θ0, hist)
  | fuel + 1, θ, θ0, hist =>
      let s := gdStep alpha l2 m X y θ θ0
      let c := costFn s.1 s.2
      if hist ≠ [] ∧ hist.getLastD 0 - c < 1/10000 then (s.1, s.2, hist ++ [c])
      else LogisticRegression.fitGo costFn alpha l2 X y m fuel s.1 s.2 (hist ++ [c])

/-- `LogisticRegression.fit`: reads `(m, n) = dataset.get_shape()`,
initializes `theta` to `np.zeros(n)` and `theta_zero` to `0`, runs the
gradient-descent loop, and returns the estimator with the learned
parameters and the cost history recorded by this fit. -/
def LogisticRegression.fit (costFn : List ℚ → ℚ → ℚ)
    (lr : LogisticRegression) (ds : Dataset) : LogisticRegression :=
  let m := ds.get_shape.1
  let n := ds.get_shape.2
  let r := LogisticRegression.fitGo costFn lr.alpha lr.l2_penalty ds.X ds.y m
      lr.max_iter (List.replicate n 0) 0 []
  { lr with theta := some r.1, theta_zero := some r.2.1, cost_history := r.2.2 }

/-- `LogisticRegression.predict`: computes
`sigmoid_function(np.dot(dataset.X, self.theta) + self.theta_zero)` and
binarizes with the mask `predictions >= 0.5` (entries `>= 0.5` become 1,
the rest become 0).  The sigmoid primitive (src/si/statistics, not part of
the snapshot) is a function parameter.  When the estimator was never fit,
`self.theta` is `None` and `np.dot(dataset.X, None)` raises a `TypeError`
in Python; that failure is embedded as `none`. -/
def LogisticRegression.predict (sigmoid : ℚ → ℚ) (lr : LogisticRegression)
    (ds : Dataset) : Option (List ℚ) :=
  match lr.theta, lr.theta_zero with
  | some θ, some θ0 =>
      let predictions := (matVec ds.X θ).map (fun z => sigmoid (z + θ0))
      some (predictions.map (fun p => if 1/2 ≤ p then 1 else 0))
  | _, _ => none

/-- Modelled from the spec: the `accuracy` metric
(src/si/metrics/accuracy.py is not part of the snapshot).  Spec §2/§6:
"default is exact-match accuracy", "fraction of exact matches". -/
def accuracy (y_true y_pred : List ℚ) : ℚ :=
  (((y_true.zip y_pred).countP (fun p => decide (p.1 = p.2))) : ℚ) / (y_true.length : ℚ)

/-- `LogisticRegression.score`: `accuracy(dataset.y, self.predict(dataset))`.
A predict failure (unfit estimator) propagates as `none`. -/
def LogisticRegression.score (sigmoid : ℚ → ℚ) (lr : LogisticRegression)
    (ds : Dataset) : Option ℚ :=
  (LogisticRegression.predict sigmoid lr ds).map (fun y_pred => accuracy ds.y y_pred)

/-- Sum of a list of float results where any infinite/NaN term poisons the
whole sum (numpy: `inf`/`nan` propagate through `np.sum`); `none` stands
for an infinite or NaN value. -/
def optSum : List (Option ℚ) → Option ℚ :=
  List.foldr (fun o acc => o.bind (fun x => acc.map (fun s => x + s))) (some 0)

/-- `LogisticRegression.cost` (source lines 135–139):
`predictions = sigmoid_function(np.dot(X, theta) + theta_zero)`;
`cost = (-y * np.log(predictions)) - ((1 - y) * np.log(1 - predictions))`;
`cost = np.sum(cost) / m`; then the L2 term
`l2_penalty * np.sum(theta ** 2) / (2 * m)` is added.  The source applies
`np.log` directly, with no clamping of `predictions`; `log` is a function
parameter returning `none` on arguments where `np.log` yields `-inf`/`nan`
(i.e. arguments ≤ 0), and a `none` term poisons the whole cost (in float
arithmetic `0 * -inf` is NaN and finite `* -inf` is infinite, so any
`log(0)` makes the summed cost infinite or NaN). -/
def LogisticRegression.cost (log : ℚ → Option ℚ) (sigmoid : ℚ → ℚ)
    (lr : LogisticRegression) (ds : Dataset) : Option ℚ :=
  match lr.theta, lr.theta_zero with
  | some θ, some θ0 =>
      let predictions := (matVec ds.X θ).map (fun z => sigmoid (z + θ0))
      let terms := (ds.y.zip predictions).map (fun yp =>
        (log yp.2).bind (fun a =>
          (log (1 - yp.2)).map (fun b => (-yp.1) * a - (1 - yp.1) * b)))
      (optSum terms).map (fun s =>
        s / (ds.get_shape.1 : ℚ)
          + lr.l2_penalty * (θ.map (fun t => t ^ 2)).sum / (2 * (ds.get_shape.1 : ℚ)))
  | _, _ => none

/-- The slice of a model object that `cross_validate` uses: `model.fit`
(mutating, so embedded as a state transformer on the model state `σ`) and
`model.score`.  For `LogisticRegression`, `score` is total on fitted
states; a `score` of an unfit model would raise, which generic callers of
this record never do (`fit` always precedes `score` in `cross_validate`). -/
structure MLModel (σ : Type) where
  fit : σ → Dataset → σ
  score : σ → Dataset → ℚ

/-- The `scores` dict built by `cross_validate`: parallel `seeds`, `train`
and `test` lists. -/
structure CVScores where
  seeds : List ℕ
  train : List ℚ
  test : List ℚ
deriving Repr, DecidableEq

/-- The body of `cross_validate`'s `for i in range(cv)` loop
(src/si/model_selection/cross_validate.py, lines 31–49), embedded with the
loop's remaining iteration count.  Faithful to the source, the loop body
ends in `return scores`, so the `remaining + 1` case never recurses: the
seed is drawn (`np.random.randint(0, 1000)`, embedded as the stream
`rng`), the dataset is split (`train_test_split` is not part of the
snapshot and is passed as a function of dataset, test size and seed), the
model is fit on the train split, one pair of scores is appended — note the
source's scoring branch appends `scoring(y_test, model.score(train))`,
the TRAIN score, to the `test` list — and the function returns.  When
`cv = 0` the loop body never runs and the Python function falls off the
end, returning `None` (embedded as `none`). -/
def cvLoop {σ : Type} (M : MLModel σ)
    (split : Dataset → ℚ → ℕ → Dataset × Dataset) (rng : ℕ → ℕ)
    (ds : Dataset) (scoring : Option (List ℚ → ℚ → ℚ)) (test_size : ℚ)
    (i : ℕ) (st : σ) (scores : CVScores) : ℕ → Option (CVScores × σ)
  | 0 => none
  | _ + 1 =>
      let random_state := rng i
      let scores := { scores with seeds := scores.seeds ++ [random_state] }
      let p := split ds test_size random_state
      let train := p.1
      let test := p.2
      let st' := M.fit st train
      match scoring with
      | none =>
          some ({ scores with
                    train := scores.train ++ [M.score st' train],
                    test := scores.test ++ [M.score st' test] }, st')
      | some f =>
          some ({ scores with
                    train := scores.train ++ [f train.y (M.score st' train)],
                    test := scores.test ++ [f test.y (M.score st' train)] }, st')

/-- `cross_validate(model, dataset, scoring, cv, test_size)`: initializes
the empty `scores` record and enters the fold loop.  The model state is
threaded explicitly (Python mutates the model in place), so the result
also carries the model state after the call. -/
def cross_validate {σ : Type} (M : MLModel σ)
    (split : Dataset → ℚ → ℕ → Dataset × Dataset) (rng : ℕ → ℕ)
    (st : σ) (ds : Dataset) (scoring : Option (List ℚ → ℚ → ℚ))
    (cv : ℕ) (test_size : ℚ) : Option (CVScores × σ) :=
  cvLoop M split rng ds scoring test_size 0 st ⟨[], [], []⟩ cv

/-- The slice of a model object that `grid_search` uses for reflection:
`hasattr`, `getattr`, `setattr` over attribute names, plus the string the
model formats as in the f-string `f"Model {model} ..."`. -/
structure AttrModel (σ : Type) where
  name : σ → String
  hasattr : σ → String → Bool
  getattr : σ → String → Option ℚ
  setattr : σ → String → ℚ → σ

/-- One entry of `grid_search`'s result list: the `cross_validate` score
dict with the `"parameters"` key added (the exact assignment, as the
ordered key/value pairs the source's dict holds). -/
structure GSRecord where
  scores : CVScores
  parameters : List (String × ℚ)
deriving Repr, DecidableEq

/-- Apply a list of `setattr` calls in order (the source's
`for parameter, value in zip(parameter_grid.keys(), combination):
setattr(model, parameter, value)`). -/
def applySetattrs {σ : Type} (A : AttrModel σ) (st : σ)
    (ps : List (String × ℚ)) : σ :=
  ps.foldl (fun s p => A.setattr s p.1 p.2) st

/-- `itertools.product(*value_lists)`: all tuples taking one element per
list, with the FIRST list varying slowest and the last varying fastest
(`product([a,b],[1,2]) = [(a,1),(a,2),(b,1),(b,2)]`).  `product()` of no
lists yields the single empty tuple. -/
def cartProd : List (List ℚ) → List (List ℚ)
  | [] => [[]]
  | l :: ls => l.flatMap (fun x => (cartProd ls).map (fun c => x :: c))

/-- The `for combination in itertools.product(...)` loop of `grid_search`
(src/si/model_selection/grid_search.py, lines 16–31): per combination it
builds the `parameters` dict while `setattr`-ing the model, runs
`cross_validate`, attaches the parameters to the score record and appends
it.  Were `cross_validate` to return `None` (`cv = 0`), the assignment
`score["parameters"] = parameters` would raise a `TypeError`, embedded as
an error carrying the mutated model state. -/
def gsLoop {σ : Type} (A : AttrModel σ) (M : MLModel σ)
    (split : Dataset → ℚ → ℕ → Dataset × Dataset) (rng : ℕ → ℕ)
    (ds : Dataset) (scoring : Option (List ℚ → ℚ → ℚ)) (cv : ℕ)
    (test_size : ℚ) (keys : List String) :
    List (List ℚ) → σ → List GSRecord → Except String (List GSRecord) × σ
  | [], st, recs => (Except.ok recs, st)
  | combination :: rest, st, recs =>
      let parameters := keys.zip combination
      let st := applySetattrs A st parameters
      match cross_validate M split rng st ds scoring cv test_size with
      | none => (Except.error ("TypeError: NoneType does not support item assignment"), st)
      | some (score, st') =>
          gsLoop A M split rng ds scoring cv test_size keys rest st'
            (recs ++ [{ scores := score, parameters := parameters }])

/-- `grid_search(model, dataset, parameter_grid, scoring, cv, test_size)`:
first validates every key of the grid with `hasattr`, raising
`AttributeError(f"Model {model} does not have parameter {parameter}.")` on
the first offending key (before any combination is processed and before
any `setattr`), then iterates the Cartesian product of the value lists in
the grid's key order.  `parameter_grid` is a Python dict, embedded as the
association list of its (unique) keys, in iteration order, with their
value lists.  The result pairs the Python return value (or the raised
error) with the final model state. -/
def grid_search {σ : Type} (A : AttrModel σ) (M : MLModel σ)
    (split : Dataset → ℚ → ℕ → Dataset × Dataset) (rng : ℕ → ℕ)
    (st : σ) (ds : Dataset) (parameter_grid : List (String × List ℚ))
    (scoring : Option (List ℚ → ℚ → ℚ)) (cv : ℕ) (test_size : ℚ) :
    Except String (List GSRecord) × σ :=
  match parameter_grid.find? (fun p => ! A.hasattr st p.1) with
  | some p =>
      (Except.error ("Model " ++ A.name st ++ " does not have parameter " ++ p.1 ++ "."), st)
  | none =>
      gsLoop A M split rng ds scoring cv test_size
        (parameter_grid.map (fun p => p.1)) (cartProd (parameter_grid.map (fun p => p.2)))
        st []

/-! Concrete instantiations used by the closed evaluation theorems and the
witnesses: a fixed split, seed stream, dataset, model, scoring function,
and an attribute model over an association list of named numeric
attributes. -/

/-- A one-sample train split with label 3, used as the first component of
the fixed splitter `splitC`. -/
def trainC : Dataset := ⟨[[1]], [3]⟩

/-- A one-sample test split with label 5, used as the second component of
the fixed splitter `splitC`. -/
def testC : Dataset := ⟨[[2]], [5]⟩

/-- A concrete `train_test_split` instantiation: every call yields the
fixed pair `(trainC, testC)`.  (`train_test_split` itself is not part of
the snapshot; `cross_validate` only consumes it as a function, and the
claims settled on concrete inputs do not depend on how the split is
computed.) -/
def splitC : Dataset → ℚ → ℕ → Dataset × Dataset := fun _ _ _ => (trainC, testC)

/-- A concrete seed stream for `np.random.randint(0, 1000)`: always 42. -/
def rngC : ℕ → ℕ := fun _ => 42

/-- A small concrete labeled dataset. -/
def ds1 : Dataset := ⟨[[1], [2]], [3, 5]⟩

/-- A concrete stateless model whose score on a dataset is the dataset's
first label: its train-split score (3 on `trainC`) and test-split score
(5 on `testC`) differ, which is what exhibits `cross_validate`'s use of
the train score in the test slot. -/
def modelC : MLModel Unit :=
  { fit := fun s _ => s, score := fun _ d => d.y.headD 0 }

/-- A concrete scoring function: first true label plus the passed score. -/
def scoringC : List ℚ → ℚ → ℚ := fun y_true s => y_true.headD 0 + s

/-- A concrete attribute model over an association list of named numeric
attributes: `hasattr`/`getattr` look the name up, `setattr` binds the
name (shadowing any previous binding). -/
def attrModelC : AttrModel (List (String × ℚ)) :=
  { name := fun _ => "LogisticRegression()",
    hasattr := fun s k => (s.lookup k).isSome,
    getattr := fun s k => s.lookup k,
    setattr := fun s k v => (k, v) :: s.eraseP (fun p => p.1 == k) }

/-- A concrete model over the same association-list state as `attrModelC`,
whose `fit` leaves the attributes untouched (as `LogisticRegression.fit`
leaves `l2_penalty`/`alpha`/`max_iter` untouched). -/
def mC : MLModel (List (String × ℚ)) :=
  { fit := fun s _ => s, score := fun _ _ => 0 }

/-- A concrete attribute state holding the three `LogisticRegression`
hyperparameters. -/
def stC : List (String × ℚ) :=
  [("l2_penalty", 1), ("alpha", 1/1000), ("max_iter", 1000)]

/-- A fitted `LogisticRegression` state with `theta = [1]`,
`theta_zero = 0`, used to drive the cost computation into sigmoid
saturation on `dsSat`. -/
def lrSat : LogisticRegression :=
  { l2_penalty := 1, alpha := 1/1000, max_iter := 1000,
    theta := some [1], theta_zero := some 0, cost_history := [] }

/-- A one-sample dataset whose linear score under `lrSat` is `-800`
(well below float64's sigmoid underflow threshold of about `-745`),
with label `y = 1`. -/
def dsSat : Dataset := ⟨[[-800]], [1]⟩

/-- Modelled from the spec: the saturation behaviour of
`sigmoid_function` (src/si/statistics/sigmoid_function.py, not part of
the snapshot) in float64 — spec §7: "cost computation can encounter
log(0) when predictions saturate exactly to 0 or 1".  In float64 the
sigmoid underflows to exactly 0 for arguments below about `-745` and
rounds to exactly 1 for arguments above about `37`; unsaturated values
lie strictly between 0 and 1 and are irrelevant to every claim settled
here, so the midrange is a fixed interior value. -/
def sigmoidSatW : ℚ → ℚ :=
  fun z => if z ≤ -745 then 0 else if 37 ≤ z then 1 else 1/2

/-- Witness instantiation of the abstract `np.log` parameter: `none`
(i.e. `-inf`/`nan`) on arguments ≤ 0, as `np.log` is; the finite value
returned on positive arguments is irrelevant to every claim settled here
(a crude secant stand-in is used). -/
def logW : ℚ → Option ℚ := fun q => if q ≤ 0 then none else some (q - 1)

/-! Helper lemmas. -/

/-- The dot product is symmetric. -/
theorem dotVec_comm (a b : List ℚ) : dotVec a b = dotVec b a := by
  unfold dotVec
  rw [List.zipWith_comm_of_comm _ mul_comm]

/-- `np.dot(r, X)` is the matrix–vector product of the transpose of `X`
with `r`. -/
theorem vecMatMul_eq_transpose_matVec (r : List ℚ) (X : List (List ℚ)) :
    vecMatMul r X = matVec X.transpose r := by
  unfold vecMatMul matVec
  exact List.map_congr_left (fun col _ => dotVec_comm r col)

/-- The learned parameters produced by the `fit` loop are an iterate of the
single-step update, with the iteration count bounded by the fuel. -/
theorem fitGo_params_iterate (costFn : List ℚ → ℚ → ℚ) (alpha l2 : ℚ)
    (X : List (List ℚ)) (y : List ℚ) (m : ℕ) :
    ∀ fuel θ θ0 hist, ∃ k, k ≤ fuel ∧
      ((LogisticRegression.fitGo costFn alpha l2 X y m fuel θ θ0 hist).1,
       (LogisticRegression.fitGo costFn alpha l2 X y m fuel θ θ0 hist).2.1) =
        (fun s : List ℚ × ℚ => gdStep alpha l2 m X y s.1 s.2)^[k] (θ, θ0) := by
  intro fuel
  induction fuel with
  | zero => exact fun θ θ0 hist => ⟨0, le_refl 0, rfl⟩
  | succ n ih =>
    intro θ θ0 hist
    simp only [LogisticRegression.fitGo]
    split
    · exact ⟨1, by omega, by simp⟩
    · obtain ⟨k, hk, heq⟩ :=
        ih (gdStep alpha l2 m X y θ θ0).1 (gdStep alpha l2 m X y θ θ0).2
          (hist ++ [costFn (gdStep alpha l2 m X y θ θ0).1 (gdStep alpha l2 m X y θ θ0).2])
      refine ⟨k + 1, by omega, ?_⟩
      rw [Function.iterate_succ_apply]
      exact heq

/-- C4: for every labeled dataset (m samples, n features) and every
configuration, `fit` starts from `theta = 0⃗` (length n) and
`theta_zero = 0` and repeatedly applies the single gradient-descent step;
that step computes the linear score `z = X·theta + theta_zero` (no sigmoid
anywhere in the update), the weight gradient `(alpha/m) · Xᵗ·(z − y)`, the
separate penalty `(alpha·l2_penalty/m) · theta`, and performs
`theta ← theta − gradient − penalty`,
`theta_zero ← theta_zero − (alpha/m)·Σ(z − y)`.  The first conjunct states
the step in exactly the claim's form; the second states that the fitted
parameters are an iterate (at most `max_iter` steps) of that step from the
zero initialization. -/
theorem fit_update_equations (costFn : List ℚ → ℚ → ℚ)
    (lr : LogisticRegression) (ds : Dataset) :
    (∀ θ θ0,
        gdStep lr.alpha lr.l2_penalty ds.get_shape.1 ds.X ds.y θ θ0 =
          (vsub (vsub θ
              (smulV (lr.alpha / (ds.get_shape.1 : ℚ))
                (matVec ds.X.transpose
                  (vsub ((matVec ds.X θ).map (fun z => z + θ0)) ds.y))))
            (smulV (lr.alpha * lr.l2_penalty / (ds.get_shape.1 : ℚ)) θ),
           θ0 - lr.alpha / (ds.get_shape.1 : ℚ) *
              (vsub ((matVec ds.X θ).map (fun z => z + θ0)) ds.y).sum)) ∧
    (∃ k, k ≤ lr.max_iter ∧
      ((LogisticRegression.fit costFn lr ds).theta,
       (LogisticRegression.fit costFn lr ds).theta_zero) =
        (some (((fun s : List ℚ × ℚ =>
              gdStep lr.alpha lr.l2_penalty ds.get_shape.1 ds.X ds.y s.1 s.2)^[k]
            (List.replicate ds.get_shape.2 0, 0)).1),
         some (((fun s : List ℚ × ℚ =>
              gdStep lr.alpha lr.l2_penalty ds.get_shape.1 ds.X ds.y s.1 s.2)^[k]
            (List.replicate ds.get_shape.2 0, 0)).2))) := by
  constructor
  · intro θ θ0
    simp only [gdStep, vecMatMul_eq_transpose_matVec, mul_one_div, ← mul_div_assoc,
      mul_one]
  · obtain ⟨k, hk, heq⟩ := fitGo_params_iterate costFn lr.alpha lr.l2_penalty
      ds.X ds.y ds.get_shape.1 lr.max_iter (List.replicate ds.get_shape.2 0) 0 []
    refine ⟨k, hk, ?_⟩
    simp only [LogisticRegression.fit]
    rw [Prod.ext_iff] at heq ⊢
    exact ⟨congrArg some heq.1, congrArg some heq.2⟩

/-- The last entry of a list read through `getD` at index `length - 1`. -/
theorem getLastD_eq_getD (l : List ℚ) :
    l.getLastD 0 = l.getD (l.length - 1) 0 := by
  rw [List.getLastD_eq_getLast?, List.getLast?_eq_getElem?, List.getD_eq_getElem?_getD]

/-- Loop invariant of the `fit` loop: starting from a history none of whose
consecutive pairs triggers the `< 1e-4` stop, the final history has grown
by at most the fuel, and no consecutive pair other than possibly its last
one triggers the stop. -/
theorem fitGo_hist_spec (costFn : List ℚ → ℚ → ℚ) (alpha l2 : ℚ)
    (X : List (List ℚ)) (y : List ℚ) (m : ℕ) :
    ∀ fuel θ θ0 hist,
      (∀ j, j + 1 < hist.length →
        ¬ (hist.getD j 0 - hist.getD (j + 1) 0 < 1/10000)) →
      (LogisticRegression.fitGo costFn alpha l2 X y m fuel θ θ0 hist).2.2.length
          ≤ hist.length + fuel ∧
      hist.length ≤
        (LogisticRegression.fitGo costFn alpha l2 X y m fuel θ θ0 hist).2.2.length ∧
      ∀ j, j + 2 < (LogisticRegression.fitGo costFn alpha l2 X y m fuel θ θ0 hist).2.2.length →
        ¬ ((LogisticRegression.fitGo costFn alpha l2 X y m fuel θ θ0 hist).2.2.getD j 0 -
            (LogisticRegression.fitGo costFn alpha l2 X y m fuel θ θ0 hist).2.2.getD (j + 1) 0
              < 1/10000) := by
  intro fuel
  induction fuel with
  | zero =>
    intro θ θ0 hist H
    refine ⟨by simp [LogisticRegression.fitGo], by simp [LogisticRegression.fitGo], ?_⟩
    intro j hj
    simp only [LogisticRegression.fitGo] at hj ⊢
    exact H j (by omega)
  | succ n ih =>
    intro θ θ0 hist H
    simp only [LogisticRegression.fitGo]
    split
    case isTrue h =>
      refine ⟨by simp, by simp, ?_⟩
      intro j hj
      simp only [List.length_append, List.length_cons, List.length_nil] at hj
      have hj1 : j + 1 < hist.length := by omega
      rw [List.getD_append _ _ _ _ (by omega), List.getD_append _ _ _ _ (by omega)]
      exact H j hj1
    case isFalse h =>
      have Hnew : ∀ j, j + 1 < (hist ++ [costFn (gdStep alpha l2 m X y θ θ0).1
          (gdStep alpha l2 m X y θ θ0).2]).length →
          ¬ ((hist ++ [costFn (gdStep alpha l2 m X y θ θ0).1
                (gdStep alpha l2 m X y θ θ0).2]).getD j 0 -
              (hist ++ [costFn (gdStep alpha l2 m X y θ θ0).1
                (gdStep alpha l2 m X y θ θ0).2]).getD (j + 1) 0 < 1/10000) := by
        intro j hj
        simp only [List.length_append, List.length_cons, List.length_nil] at hj
        rcases Nat.lt_or_ge (j + 1) hist.length with hcase | hcase
        · rw [List.getD_append _ _ _ _ (by omega), List.getD_append _ _ _ _ hcase]
          exact H j hcase
        · -- the new pair: previous last entry against the appended cost
          have hjeq : j + 1 = hist.length := by omega
          have hne : hist ≠ [] := by
            intro hnil
            rw [hnil] at hjeq
            simp at hjeq
          have h1 : (hist ++ [costFn (gdStep alpha l2 m X y θ θ0).1
              (gdStep alpha l2 m X y θ θ0).2]).getD j 0 = hist.getLastD 0 := by
            rw [List.getD_append _ _ _ _ (by omega), getLastD_eq_getD]
            congr 1
            omega
          have h2 : (hist ++ [costFn (gdStep alpha l2 m X y θ θ0).1
              (gdStep alpha l2 m X y θ θ0).2]).getD (j + 1) 0 =
              costFn (gdStep alpha l2 m X y θ θ0).1 (gdStep alpha l2 m X y θ θ0).2 := by
            rw [List.getD_eq_getElem?_getD, hjeq,
              List.getElem?_append_right (le_refl hist.length)]
            simp
          rw [h1, h2]
          intro hlt
          exact h ⟨hne, hlt⟩
      obtain ⟨ha, hb, hc⟩ := ih (gdStep alpha l2 m X y θ θ0).1
        (gdStep alpha l2 m X y θ θ0).2
        (hist ++ [costFn (gdStep alpha l2 m X y θ θ0).1 (gdStep alpha l2 m X y θ θ0).2]) Hnew
      refine ⟨?_, ?_, hc⟩
      · simp only [List.length_append, List.length_cons, List.length_nil] at ha
        omega
      · simp only [List.length_append, List.length_cons, List.length_nil] at hb
        omega

/-- C5: `fit` performs at most `max_iter` iterations — `cost_history`
gains at most `max_iter` entries per fit — and whenever the convergence
test fires at a recorded iteration `i > 0` (the cost decreased by less
than `1e-4` relative to entry `i - 1`), that iteration is the last one
recorded: `fit` returned immediately there. -/
theorem fit_early_stopping (costFn : List ℚ → ℚ → ℚ)
    (lr : LogisticRegression) (ds : Dataset) :
    (LogisticRegression.fit costFn lr ds).cost_history.length ≤ lr.max_iter ∧
    ∀ i, 0 < i →
      i < (LogisticRegression.fit costFn lr ds).cost_history.length →
      (LogisticRegression.fit costFn lr ds).cost_history.getD (i - 1) 0 -
          (LogisticRegression.fit costFn lr ds).cost_history.getD i 0 < 1/10000 →
      i = (LogisticRegression.fit costFn lr ds).cost_history.length - 1 := by
  have hspec := fitGo_hist_spec costFn lr.alpha lr.l2_penalty ds.X ds.y
    ds.get_shape.1 lr.max_iter (List.replicate ds.get_shape.2 0) 0 []
    (by intro j hj; simp at hj)
  simp only [LogisticRegression.fit]
  obtain ⟨ha, _, hc⟩ := hspec
  refine ⟨by simpa using ha, ?_⟩
  intro i hi hlen htrig
  by_contra hne
  have hj : (i - 1) + 2 <
      (LogisticRegression.fitGo costFn lr.alpha lr.l2_penalty ds.X ds.y
        ds.get_shape.1 lr.max_iter (List.replicate ds.get_shape.2 0) 0 []).2.2.length := by
    omega
  have := hc (i - 1) hj
  have heq1 : (i - 1) + 1 = i := by omega
  rw [heq1] at this
  exact this htrig

/-- C9: after `fit`, `predict` on a dataset with n_samples rows returns
`some` vector obtained by applying the sigmoid to each linear score
`X·theta + theta_zero` and thresholding at 0.5 (`>= 0.5` maps to 1,
`< 0.5` maps to 0); the vector has length n_samples and every entry is
0 or 1. -/
theorem predict_after_fit (sigmoid : ℚ → ℚ) (costFn : List ℚ → ℚ → ℚ)
    (lr : LogisticRegression) (ds : Dataset) :
    ∃ θ θ0,
      (LogisticRegression.fit costFn lr ds).theta = some θ ∧
      (LogisticRegression.fit costFn lr ds).theta_zero = some θ0 ∧
      LogisticRegression.predict sigmoid (LogisticRegression.fit costFn lr ds) ds =
        some ((matVec ds.X θ).map
          (fun z => if 1/2 ≤ sigmoid (z + θ0) then 1 else 0)) ∧
      ((matVec ds.X θ).map
          (fun z => if 1/2 ≤ sigmoid (z + θ0) then 1 else 0)).length = ds.X.length ∧
      ∀ q ∈ (matVec ds.X θ).map
          (fun z => if 1/2 ≤ sigmoid (z + θ0) then 1 else 0), q = 0 ∨ q = 1 := by
  refine ⟨_, _, rfl, rfl, ?_, ?_, ?_⟩
  · simp [LogisticRegression.predict, List.map_map]
    rfl
  · simp [matVec]
  · intro q hq
    simp only [List.mem_map] at hq
    obtain ⟨z, _, hz⟩ := hq
    rw [← hz]
    split_ifs
    · right
      rfl
    · left
      rfl

/-- C7: evaluation of the code at the failing input.  On a never-fit
estimator (`LogisticRegression()` defaults: `theta = None`,
`theta_zero = None`), `predict` performs `np.dot(dataset.X, None)`, which
raises (embedded: `none`) — a generic `TypeError` on the null parameters,
not an explicit "not fitted" condition — and `score` fails the same way
through its `predict` call.  No numeric/NaN output is produced. -/
theorem predict_score_unfit_fail :
    LogisticRegression.predict sigmoidSatW LogisticRegression.init ds1 = none ∧
    LogisticRegression.score sigmoidSatW LogisticRegression.init ds1 = none :=
  ⟨rfl, rfl⟩

/-- C1: evaluation of the code at the failing input `cv = 2`.  Because the
source's `return scores` sits inside the fold loop, `cross_validate` with
`cv = 2` returns `seeds`/`train`/`test` lists of length 1, not 2. -/
theorem cross_validate_cv2_single_fold :
    (cross_validate modelC splitC rngC () ds1 none 2 (1/5)).map
        (fun p => (p.1.seeds.length, p.1.train.length, p.1.test.length)) =
      some (1, 1, 1) := by
  rfl

/-- C3: evaluation of the code at a failing input.  With a scoring
function supplied, the entry appended to the `test` list is
`scoring(y_test, model.score(train))` — the TRAIN split's score (here
`scoringC [5] 3 = 8`) — whereas the claim's `scoring(y_test,
model.score(test))` would be `scoringC [5] 5 = 10`. -/
theorem cross_validate_test_entry_uses_train_score :
    (cross_validate modelC splitC rngC () ds1 (some scoringC) 1 (1/5)).map
        (fun p => p.1.test) = some [8] ∧
    scoringC testC.y (modelC.score () testC) = 10 ∧ (8 : ℚ) ≠ 10 := by
  refine ⟨?_, ?_, by norm_num⟩
  · simp only [cross_validate, cvLoop, modelC, splitC, rngC, scoringC, trainC, testC]
    norm_num
  · simp only [modelC, scoringC, testC]
    norm_num

/-- C8: the cost computation applies `np.log` directly to the
sigmoid-activated predictions with no clamp or other guard; when the
sigmoid saturates to exactly 0 (here on the linear score `-800` with label
`y = 1`), the cost is `log(0) = -inf`-poisoned (embedded: `none`), i.e.
infinite/NaN rather than finite, and nothing in the code stops it from
reaching `fit`'s convergence check. -/
theorem cost_log_zero_unguarded (log : ℚ → Option ℚ) (sigmoid : ℚ → ℚ)
    (hlog : log 0 = none) (hsig : sigmoid (-800) = 0) :
    LogisticRegression.cost log sigmoid lrSat dsSat = none := by
  have harith : dotVec [(-800 : ℚ)] [1] = -800 := by
    simp [dotVec]
  simp [LogisticRegression.cost, lrSat, dsSat, matVec, harith, hsig, hlog, optSum]

/-- Witness for `cost_log_zero_unguarded`: the modelled `np.log` is
undefined at 0 and the spec-modelled saturating sigmoid returns exactly 0
at `-800`, so the concrete cost evaluation is `none`. -/
theorem cost_log_zero_unguarded_witness :
    logW 0 = none ∧ sigmoidSatW (-800) = 0 ∧
    LogisticRegression.cost logW sigmoidSatW lrSat dsSat = none :=
  ⟨by decide, by decide,
    cost_log_zero_unguarded logW sigmoidSatW (by decide) (by decide)⟩

/-- Erasing the (first) binding of key `k` does not change lookups of a
different key `k'`. -/
theorem lookup_eraseP_ne (k k' : String) (h : k' ≠ k) :
    ∀ s : List (String × ℚ),
      (s.eraseP (fun p => p.1 == k)).lookup k' = s.lookup k' := by
  intro s
  induction s with
  | nil => rfl
  | cons p t ih =>
    obtain ⟨a, b⟩ := p
    rw [List.eraseP_cons]
    by_cases hak : a = k
    · subst hak
      have hk : (k' == a) = false := by simpa using h
      simp [List.lookup_cons, hk]
    · have hne : ((a, b).1 == k) = false := by simpa using hak
      rw [hne, cond_false]
      by_cases hk'a : k' = a
      · subst hk'a
        simp [List.lookup_cons]
      · have hf : (k' == a) = false := by simpa using hk'a
        simp [List.lookup_cons, hf, ih]

/-- `attrModelC` satisfies the read-back law for `setattr`. -/
theorem attrModelC_setattr_self (s : List (String × ℚ)) (k : String) (v : ℚ) :
    attrModelC.getattr (attrModelC.setattr s k v) k = some v := by
  simp [attrModelC, List.lookup_cons]

/-- `attrModelC`'s `setattr` does not disturb other attributes. -/
theorem attrModelC_setattr_ne (s : List (String × ℚ)) (k : String) (v : ℚ)
    (k' : String) (h : k' ≠ k) :
    attrModelC.getattr (attrModelC.setattr s k v) k' = attrModelC.getattr s k' := by
  have hf : (k' == k) = false := by simpa using h
  simp only [attrModelC]
  rw [List.lookup_cons]
  simp only [hf]
  exact lookup_eraseP_ne k k' h s

/-- A run of `setattr` calls over keys not containing `k` leaves attribute
`k` unchanged. -/
theorem applySetattrs_getattr_not_mem {σ : Type} (A : AttrModel σ)
    (law2 : ∀ s k v k', k' ≠ k → A.getattr (A.setattr s k v) k' = A.getattr s k') :
    ∀ (ps : List (String × ℚ)) (st : σ) (k : String), k ∉ ps.map Prod.fst →
      A.getattr (applySetattrs A st ps) k = A.getattr st k := by
  intro ps
  induction ps with
  | nil => intro st k _; rfl
  | cons p t ih =>
    intro st k hk
    simp only [List.map_cons, List.mem_cons, not_or] at hk
    have hstep : applySetattrs A st (p :: t) =
        applySetattrs A (A.setattr st p.1 p.2) t := by
      simp [applySetattrs]
    rw [hstep, ih _ k hk.2, law2 st p.1 p.2 k hk.1]

/-- After a run of `setattr` calls over pairwise-distinct keys, reading an
assigned key returns its assigned value. -/
theorem applySetattrs_getattr_mem {σ : Type} (A : AttrModel σ)
    (law1 : ∀ s k v, A.getattr (A.setattr s k v) k = some v)
    (law2 : ∀ s k v k', k' ≠ k → A.getattr (A.setattr s k v) k' = A.getattr s k') :
    ∀ (ps : List (String × ℚ)) (st : σ) (k : String) (v : ℚ),
      (ps.map Prod.fst).Nodup → (k, v) ∈ ps →
      A.getattr (applySetattrs A st ps) k = some v := by
  intro ps
  induction ps with
  | nil => intro st k v _ hm; cases hm
  | cons p t ih =>
    intro st k v hnd hm
    simp only [List.map_cons, List.nodup_cons] at hnd
    have hstep : applySetattrs A st (p :: t) =
        applySetattrs A (A.setattr st p.1 p.2) t := by
      simp [applySetattrs]
    rcases List.mem_cons.mp hm with heq | htail
    · subst heq
      rw [hstep, applySetattrs_getattr_not_mem A law2 t _ k hnd.1, law1]
    · have hk : p.1 ≠ k := by
        intro hcontr
        exact hnd.1 (hcontr ▸ List.mem_map_of_mem Prod.fst htail)
      rw [hstep]
      exact ih _ k v hnd.2 htail

/-- With `cv ≥ 1`, `cross_validate` returns after its single executed fold,
and the model state it returns is exactly the model fit on the first drawn
train split. -/
theorem cross_validate_succ_eq {σ : Type} (M : MLModel σ)
    (split : Dataset → ℚ → ℕ → Dataset × Dataset) (rng : ℕ → ℕ) (st : σ)
    (ds : Dataset) (scoring : Option (List ℚ → ℚ → ℚ)) (cv : ℕ)
    (test_size : ℚ) (hcv : 1 ≤ cv) :
    ∃ sc : CVScores, cross_validate M split rng st ds scoring cv test_size =
      some (sc, M.fit st (split ds test_size (rng 0)).1) := by
  obtain ⟨n, rfl⟩ : ∃ n, cv = n + 1 := ⟨cv - 1, by omega⟩
  cases scoring with
  | none => exact ⟨_, rfl⟩
  | some f => exact ⟨_, rfl⟩

/-- The records accumulated by the grid-search loop: with `cv ≥ 1` the loop
succeeds and tags one record per combination, in order, with exactly the
key/value assignment of that combination. -/
theorem gsLoop_ok_params {σ : Type} (A : AttrModel σ) (M : MLModel σ)
    (split : Dataset → ℚ → ℕ → Dataset × Dataset) (rng : ℕ → ℕ)
    (ds : Dataset) (scoring : Option (List ℚ → ℚ → ℚ)) (cv : ℕ)
    (test_size : ℚ) (keys : List String) (hcv : 1 ≤ cv) :
    ∀ (combos : List (List ℚ)) (st : σ) (recs : List GSRecord),
      ∃ recs' stf,
        gsLoop A M split rng ds scoring cv test_size keys combos st recs =
          (Except.ok recs', stf) ∧
        recs'.map (fun r => r.parameters) =
          recs.map (fun r => r.parameters) ++ combos.map (fun c => keys.zip c) := by
  intro combos
  induction combos with
  | nil => intro st recs; exact ⟨recs, st, rfl, by simp⟩
  | cons c rest ih =>
    intro st recs
    obtain ⟨sc, hsc⟩ := cross_validate_succ_eq M split rng
      (applySetattrs A st (keys.zip c)) ds scoring cv test_size hcv
    obtain ⟨recs', stf, hrec, hmap⟩ :=
      ih (M.fit (applySetattrs A st (keys.zip c)) (split ds test_size (rng 0)).1)
        (recs ++ [{ scores := sc, parameters := keys.zip c }])
    refine ⟨recs', stf, ?_, ?_⟩
    · simp only [gsLoop]
      rw [hsc]
      exact hrec
    · rw [hmap]
      simp

/-- The Cartesian product has exactly the product of the list lengths as
its length. -/
theorem cartProd_length (ls : List (List ℚ)) :
    (cartProd ls).length = (ls.map List.length).prod := by
  induction ls with
  | nil => rfl
  | cons l t ih =>
    simp only [cartProd, List.length_flatMap]
    have hmap : List.map (List.length ∘ fun x => (cartProd t).map (fun c => x :: c)) l =
        List.replicate l.length (cartProd t).length := by
      rw [← List.map_const]
      exact List.map_congr_left (fun a _ => by simp)
    rw [hmap, List.sum_replicate, smul_eq_mul, ih]
    simp

/-- Every tuple in the Cartesian product has one entry per value list. -/
theorem mem_cartProd_length (ls : List (List ℚ)) :
    ∀ c ∈ cartProd ls, c.length = ls.length := by
  induction ls with
  | nil =>
    intro c hc
    simp only [cartProd, List.mem_singleton] at hc
    subst hc
    rfl
  | cons l t ih =>
    intro c hc
    simp only [cartProd, List.mem_flatMap, List.mem_map] at hc
    obtain ⟨x, _, c', hc', rfl⟩ := hc
    simp [ih c' hc']

/-- The Cartesian product of duplicate-free value lists is duplicate-free. -/
theorem cartProd_nodup (ls : List (List ℚ)) (h : ∀ l ∈ ls, l.Nodup) :
    (cartProd ls).Nodup := by
  induction ls with
  | nil => simp [cartProd]
  | cons l t ih =>
    simp only [cartProd]
    rw [List.nodup_flatMap]
    refine ⟨fun x _ => List.Nodup.map List.cons_injective
      (ih (fun l' hl' => h l' (List.mem_cons_of_mem _ hl'))), ?_⟩
    have hl : l.Nodup := h l (List.mem_cons_self _ _)
    refine hl.imp ?_
    intro a b hab
    intro z hza hzb
    simp only [Function.onFun, List.mem_map] at hza hzb
    obtain ⟨c₁, _, rfl⟩ := hza
    obtain ⟨c₂, _, hz⟩ := hzb
    have hba : b = a := by
      injection hz with h1 h2
    exact hab hba.symm

/-- The Cartesian product of nonempty value lists is nonempty. -/
theorem cartProd_ne_nil (ls : List (List ℚ)) (h : ∀ l ∈ ls, l ≠ []) :
    cartProd ls ≠ [] := by
  induction ls with
  | nil => simp [cartProd]
  | cons l t ih =>
    simp only [cartProd]
    rw [Ne, List.flatMap_eq_nil_iff]
    push_neg
    obtain ⟨x, hx⟩ : ∃ x, x ∈ l := by
      cases hl : l with
      | nil => exact absurd hl (h l (List.mem_cons_self _ _))
      | cons a t' => exact ⟨a, hl ▸ List.mem_cons_self a t'⟩
    refine ⟨x, hx, ?_⟩
    have := ih (fun l' hl' => h l' (List.mem_cons_of_mem _ hl'))
    intro hmap
    exact this (List.map_eq_nil_iff.mp hmap)

/-- The fallback of `getLastD` is irrelevant on a nonempty list. -/
theorem getLastD_of_ne_nil {α : Type} (l : List α) (h : l ≠ []) (d d' : α) :
    l.getLastD d = l.getLastD d' := by
  cases l with
  | nil => exact absurd rfl h
  | cons a t => rw [List.getLastD_cons, List.getLastD_cons]

/-- The last tuple of the Cartesian product of nonempty value lists takes
the last element of every list. -/
theorem cartProd_getLastD (ls : List (List ℚ)) (h : ∀ l ∈ ls, l ≠ []) :
    (cartProd ls).getLastD [] = ls.map (fun l => l.getLastD 0) := by
  induction ls with
  | nil => rfl
  | cons l t ih =>
    have hl : l ≠ [] := h l (List.mem_cons_self _ _)
    have ht : ∀ l' ∈ t, l' ≠ [] := fun l' h' => h l' (List.mem_cons_of_mem _ h')
    have hcp : cartProd t ≠ [] := cartProd_ne_nil t ht
    rw [List.getLastD_eq_getLast?]
    simp only [cartProd]
    rw [List.getLast?_flatMap]
    obtain ⟨a, rl, hrl⟩ : ∃ a rl, l.reverse = a :: rl := by
      cases hr : l.reverse with
      | nil => exact absurd (by simpa using congrArg List.reverse hr) hl
      | cons a rl => exact ⟨a, rl, rfl⟩
    rw [hrl, List.findSome?_cons]
    have ha : a = l.getLastD 0 := by
      have hgl : l.getLast? = some a := by
        rw [List.getLast?_eq_head?_reverse, hrl]
        rfl
      rw [List.getLastD_eq_getLast?, hgl]
      rfl
    obtain ⟨c0, hc0⟩ : ∃ c0, (cartProd t).getLast? = some c0 := by
      cases hg : (cartProd t).getLast? with
      | none => exact absurd (List.getLast?_eq_none_iff.mp hg) hcp
      | some c0 => exact ⟨c0, rfl⟩
    have hlast : ((cartProd t).map (fun c => a :: c)).getLast? = some (a :: c0) := by
      rw [List.getLast?_map, hc0]
      rfl
    rw [hlast]
    have hc0D : (cartProd t).getLastD [] = c0 := by
      rw [List.getLastD_eq_getLast?, hc0]
      rfl
    simp only [Option.getD_some, List.map_cons]
    rw [← ha, ← hc0D, ih ht]

/-- Zipping a fixed key list is injective on value tuples of matching
length. -/
theorem zip_right_injective (keys : List String) :
    ∀ c₁ c₂ : List ℚ, c₁.length = keys.length → c₂.length = keys.length →
      keys.zip c₁ = keys.zip c₂ → c₁ = c₂ := by
  induction keys with
  | nil =>
    intro c₁ c₂ h1 h2 _
    simp only [List.length_nil, List.length_eq_zero] at h1 h2
    rw [h1, h2]
  | cons k t ih =>
    intro c₁ c₂ h1 h2 hz
    cases c₁ with
    | nil => simp at h1
    | cons a t₁ =>
      cases c₂ with
      | nil => simp at h2
      | cons b t₂ =>
        simp only [List.zip_cons_cons, List.cons.injEq, Prod.mk.injEq] at hz
        rw [hz.1.2, ih t₁ t₂ (by simpa using h1) (by simpa using h2) hz.2]

/-- The keys of a zip are an initial segment of the key list. -/
theorem map_fst_zip_take (keys : List String) :
    ∀ c : List ℚ, (keys.zip c).map Prod.fst = keys.take c.length := by
  induction keys with
  | nil => intro c; simp
  | cons k t ih =>
    intro c
    cases c with
    | nil => simp
    | cons a t₁ => simp [List.zip_cons_cons, ih t₁]

/-- The final model state of the grid-search loop: with `cv ≥ 1`, distinct
keys, a `fit` that does not touch the grid's keys, and lawful attribute
access, every key ends up bound to its value in the LAST processed
combination. -/
theorem gsLoop_final_attr {σ : Type} (A : AttrModel σ) (M : MLModel σ)
    (split : Dataset → ℚ → ℕ → Dataset × Dataset) (rng : ℕ → ℕ)
    (ds : Dataset) (scoring : Option (List ℚ → ℚ → ℚ)) (cv : ℕ)
    (test_size : ℚ) (keys : List String)
    (law1 : ∀ s k v, A.getattr (A.setattr s k v) k = some v)
    (law2 : ∀ s k v k', k' ≠ k → A.getattr (A.setattr s k v) k' = A.getattr s k')
    (hfit : ∀ s d k, k ∈ keys → A.getattr (M.fit s d) k = A.getattr s k)
    (hkeys : keys.Nodup) (hcv : 1 ≤ cv) :
    ∀ (combos : List (List ℚ)) (st : σ) (recs : List GSRecord) (k : String) (v : ℚ),
      combos ≠ [] → (k, v) ∈ keys.zip (combos.getLastD []) →
      A.getattr (gsLoop A M split rng ds scoring cv test_size keys combos st recs).2 k
        = some v := by
  intro combos
  induction combos with
  | nil => intro st recs k v hne _; exact absurd rfl hne
  | cons c rest ih =>
    intro st recs k v _ hmem
    obtain ⟨sc, hsc⟩ := cross_validate_succ_eq M split rng
      (applySetattrs A st (keys.zip c)) ds scoring cv test_size hcv
    rcases eq_or_ne rest [] with hrest | hrest
    · subst hrest
      have hmem' : (k, v) ∈ keys.zip c := by
        simpa using hmem
      have hk : k ∈ keys := (List.of_mem_zip hmem').1
      have hnd : ((keys.zip c).map Prod.fst).Nodup := by
        rw [map_fst_zip_take]
        exact (List.take_sublist _ _).nodup hkeys
      simp only [gsLoop]
      rw [hsc]
      simp only [gsLoop]
      rw [hfit _ _ k hk]
      exact applySetattrs_getattr_mem A law1 law2 (keys.zip c) st k v hnd hmem'
    · have hmem' : (k, v) ∈ keys.zip (rest.getLastD []) := by
        rwa [List.getLastD_cons, getLastD_of_ne_nil rest hrest c []] at hmem
      simp only [gsLoop]
      rw [hsc]
      exact ih _ _ k v hrest hmem'

/-- C6: when some key of the parameter grid is not an attribute of the
model, `grid_search` raises the `AttributeError` naming the (first)
offending parameter and the model — before any Cartesian combination is
processed, before any `cross_validate` fold is run and before any
`setattr`: the returned model state is the untouched input state and no
(partial) result list exists. -/
theorem grid_search_unknown_parameter_fails_fast {σ : Type} (A : AttrModel σ)
    (M : MLModel σ) (split : Dataset → ℚ → ℕ → Dataset × Dataset)
    (rng : ℕ → ℕ) (st : σ) (ds : Dataset)
    (grid : List (String × List ℚ)) (scoring : Option (List ℚ → ℚ → ℚ))
    (cv : ℕ) (test_size : ℚ) (k : String) (vs : List ℚ)
    (hfind : grid.find? (fun p => ! A.hasattr st p.1) = some (k, vs)) :
    grid_search A M split rng st ds grid scoring cv test_size =
      (Except.error ("Model " ++ A.name st ++ " does not have parameter " ++ k ++ "."),
       st) := by
  simp only [grid_search, hfind]

/-- Witness for `grid_search_unknown_parameter_fails_fast`: a concrete grid
with the unknown key "bogus" makes the concrete `grid_search` return the
error and the untouched attribute state. -/
theorem grid_search_unknown_parameter_fails_fast_witness :
    ([(("bogus" : String), [(1 : ℚ)])].find?
        (fun p => ! attrModelC.hasattr stC p.1) = some ("bogus", [1])) ∧
    grid_search attrModelC mC splitC rngC stC ds1 [("bogus", [1])] none 1 1 =
      (Except.error
        ("Model " ++ attrModelC.name stC ++ " does not have parameter " ++ "bogus" ++ "."),
       stC) :=
  ⟨by decide,
    grid_search_unknown_parameter_fails_fast attrModelC mC splitC rngC stC ds1
      [("bogus", [1])] none 1 1 "bogus" [1] (by decide)⟩

/-- C2 counterexample: with the parameter grid `{"alpha": [1, 1]}` (a value
list holding the same value twice, every key a model attribute),
`grid_search` returns two records whose `parameters` tags are the SAME
dict `{"alpha": 1}` — so the records are not tagged with pairwise-distinct
parameter assignments, refuting the claim as stated. -/
theorem grid_search_duplicate_value_tags :
    ((grid_search attrModelC mC splitC rngC stC ds1 [("alpha", [1, 1])] none 1 1).1.map
        (fun recs => recs.map (fun r => r.parameters))) =
      Except.ok [[("alpha", (1 : ℚ))], [("alpha", 1)]] := by
  rfl

/-- C2 (amended): for every parameter grid all of whose keys are model
attributes, and `cv ≥ 1`, `grid_search` returns one record per point of
the Cartesian product of the value lists taken in the grid's key order,
in that product order, each tagged with the key/value assignment that
produced it; the record count is `k1*k2*...*kn`; and whenever each value
list is duplicate-free the tags are pairwise distinct. -/
theorem grid_search_cartesian {σ : Type} (A : AttrModel σ) (M : MLModel σ)
    (split : Dataset → ℚ → ℕ → Dataset × Dataset) (rng : ℕ → ℕ) (st : σ)
    (ds : Dataset) (grid : List (String × List ℚ))
    (scoring : Option (List ℚ → ℚ → ℚ)) (cv : ℕ) (test_size : ℚ)
    (hvalid : grid.find? (fun p => ! A.hasattr st p.1) = none) (hcv : 1 ≤ cv) :
    ∃ recs stf,
      grid_search A M split rng st ds grid scoring cv test_size =
        (Except.ok recs, stf) ∧
      recs.map (fun r => r.parameters) =
        (cartProd (grid.map (fun p => p.2))).map
          (fun c => (grid.map (fun p => p.1)).zip c) ∧
      recs.length = (grid.map (fun p => p.2.length)).prod ∧
      ((∀ p ∈ grid, p.2.Nodup) → (recs.map (fun r => r.parameters)).Nodup) := by
  obtain ⟨recs, stf, hok, hmap⟩ := gsLoop_ok_params A M split rng ds scoring cv
    test_size (grid.map (fun p => p.1)) hcv (cartProd (grid.map (fun p => p.2))) st []
  have hmap' : recs.map (fun r => r.parameters) =
      (cartProd (grid.map (fun p => p.2))).map
        (fun c => (grid.map (fun p => p.1)).zip c) := by
    simpa using hmap
  refine ⟨recs, stf, ?_, hmap', ?_, ?_⟩
  · simp only [grid_search, hvalid]
    exact hok
  · have hlen := congrArg List.length hmap'
    simp only [List.length_map] at hlen
    rw [hlen, cartProd_length, List.map_map]
    rfl
  · intro hnd
    rw [hmap']
    refine List.Nodup.map_on ?_ (cartProd_nodup _ ?_)
    · intro x hx y hy hxy
      have hxl : x.length = (grid.map (fun p => p.1)).length := by
        rw [mem_cartProd_length _ x hx]
        simp
      have hyl : y.length = (grid.map (fun p => p.1)).length := by
        rw [mem_cartProd_length _ y hy]
        simp
      exact zip_right_injective _ x y hxl hyl hxy
    · intro l hl
      obtain ⟨q, hq, rfl⟩ := List.mem_map.mp hl
      exact hnd q hq

/-- Witness for `grid_search_cartesian`: a concrete valid 2×1 grid. -/
theorem grid_search_cartesian_witness :
    ([(("l2_penalty" : String), [(1 : ℚ), 2]), ("alpha", [3])].find?
        (fun p => ! attrModelC.hasattr stC p.1) = none) ∧ 1 ≤ 1 ∧
    (∃ recs stf,
      grid_search attrModelC mC splitC rngC stC ds1
          [("l2_penalty", [1, 2]), ("alpha", [3])] none 1 1 =
        (Except.ok recs, stf) ∧
      recs.map (fun r => r.parameters) =
        (cartProd ([(("l2_penalty" : String), [(1 : ℚ), 2]), ("alpha", [3])].map
            (fun p => p.2))).map
          (fun c => ([(("l2_penalty" : String), [(1 : ℚ), 2]), ("alpha", [3])].map
            (fun p => p.1)).zip c) ∧
      recs.length =
        ([(("l2_penalty" : String), [(1 : ℚ), 2]), ("alpha", [3])].map
          (fun p => p.2.length)).prod ∧
      ((∀ p ∈ [(("l2_penalty" : String), [(1 : ℚ), 2]), ("alpha", [3])], p.2.Nodup) →
        (recs.map (fun r => r.parameters)).Nodup)) :=
  ⟨by decide, by decide,
    grid_search_cartesian attrModelC mC splitC rngC stC ds1
      [("l2_penalty", [1, 2]), ("alpha", [3])] none 1 1 (by decide) (by decide)⟩

/-- C10: after a `grid_search` whose grid passes validation, has at least
one point (every value list nonempty) and distinct keys, run with `cv ≥ 1`
on a model whose `fit` leaves the grid's hyperparameter attributes alone
(as `LogisticRegression.fit` does) and whose attribute access is lawful,
every grid key is left bound to its value in the LAST combination in
Cartesian-product order — the per-combination configuration is never
restored, so the mutation persists past the call. -/
theorem grid_search_mutation_persists {σ : Type} (A : AttrModel σ)
    (M : MLModel σ) (split : Dataset → ℚ → ℕ → Dataset × Dataset)
    (rng : ℕ → ℕ) (st : σ) (ds : Dataset) (grid : List (String × List ℚ))
    (scoring : Option (List ℚ → ℚ → ℚ)) (cv : ℕ) (test_size : ℚ)
    (law1 : ∀ s k v, A.getattr (A.setattr s k v) k = some v)
    (law2 : ∀ s k v k', k' ≠ k → A.getattr (A.setattr s k v) k' = A.getattr s k')
    (hfit : ∀ s d k, k ∈ grid.map (fun q => q.1) →
      A.getattr (M.fit s d) k = A.getattr s k)
    (hkeys : (grid.map (fun q => q.1)).Nodup)
    (hvalid : grid.find? (fun p => ! A.hasattr st p.1) = none)
    (hcv : 1 ≤ cv)
    (hvs : ∀ p ∈ grid, p.2 ≠ []) :
    ∀ p ∈ grid,
      A.getattr (grid_search A M split rng st ds grid scoring cv test_size).2 p.1 =
        some (p.2.getLastD 0) := by
  intro p hp
  have hnonempty : ∀ l ∈ grid.map (fun q : String × List ℚ => q.2), l ≠ [] := by
    intro l hl
    obtain ⟨q, hq, rfl⟩ := List.mem_map.mp hl
    exact hvs q hq
  have hmem : (p.1, p.2.getLastD 0) ∈
      (grid.map (fun q => q.1)).zip
        ((cartProd (grid.map (fun q => q.2))).getLastD []) := by
    rw [cartProd_getLastD _ hnonempty, List.map_map, List.zip_map']
    exact List.mem_map_of_mem _ hp
  simp only [grid_search, hvalid]
  exact gsLoop_final_attr A M split rng ds scoring cv test_size _ law1 law2 hfit
    hkeys hcv _ st [] p.1 _ (cartProd_ne_nil _ hnonempty) hmem

/-- Witness for `grid_search_mutation_persists`: on the concrete grid
`{"alpha": [1, 2]}`, after the call the attribute state binds "alpha" to
2 — the last combination's value, not the original 1/1000. -/
theorem grid_search_mutation_persists_witness :
    (∀ s k v, attrModelC.getattr (attrModelC.setattr s k v) k = some v) ∧
    (∀ p ∈ [(("alpha" : String), [(1 : ℚ), 2])], p.2 ≠ []) ∧
    (∀ p ∈ [(("alpha" : String), [(1 : ℚ), 2])],
      attrModelC.getattr
          (grid_search attrModelC mC splitC rngC stC ds1
            [("alpha", [1, 2])] none 1 1).2 p.1 =
        some (p.2.getLastD 0)) :=
  ⟨attrModelC_setattr_self, by decide,
    grid_search_mutation_persists attrModelC mC splitC rngC stC ds1
      [("alpha", [1, 2])] none 1 1
      attrModelC_setattr_self attrModelC_setattr_ne (fun _ _ _ _ => rfl)
      (by decide) (by decide) (by decide) (by decide)⟩
